import Mathlib

/-!
self-attention-visualizer: the Go backend (`backend/main.go`)

A shallow embedding of the request handlers of `backend/main.go` and of the two
helper functions `tokenize` and `computeAttention`, followed by the properties
proved about them.

Conventions of the embedding.

* A Go `string` that comes out of `encoding/json` is valid UTF-8 (the decoder
  replaces invalid bytes by U+FFFD), so request texts are Lean `String`s; the
  Go builtin `len` on such a string is its number of UTF-8 bytes.
* Go `int` is the 64-bit type; values are carried as `Int`.
* The only `float64` values the program ever produces are the zero of `make`
  and the literals `1.0` and `0.5`; no floating-point arithmetic is performed.
  All three are exactly representable, and a `float64` is carried as the
  rational number it denotes.
* The SQLite table `texts(id INTEGER PRIMARY KEY AUTOINCREMENT, text TEXT NOT NULL)`
  is a state passed explicitly through the handlers. A failure reported by the
  storage engine for a statement (I/O, locking, ...) is an input of the handler.
* The functions of Go's standard library used by the program (`strings.Fields`,
  `unicode.IsSpace`, `strconv.Atoi`, `encoding/json`, `net/http`) are embedded
  after their documented behaviour.
-/

namespace Backend

/-! ## Go runtime -/

/-- Go's builtin `len` on a string: the number of bytes of its UTF-8 encoding. -/
def goLen (s : String) : Nat := s.utf8ByteSize

/-- Go's `unicode.IsSpace`: in Latin-1 the characters tab, newline, vertical tab,
form feed, carriage return, space, U+0085 and U+00A0; above Latin-1 the
characters of the Unicode property White_Space. -/
def unicodeIsSpace (c : Char) : Bool :=
  let r := c.toNat
  if r ≤ 0xFF then
    r == 0x09 || r == 0x0A || r == 0x0B || r == 0x0C || r == 0x0D || r == 0x20
      || r == 0x85 || r == 0xA0
  else
    r == 0x1680 || (0x2000 ≤ r && r ≤ 0x200A) || r == 0x2028 || r == 0x2029
      || r == 0x202F || r == 0x205F || r == 0x3000

/-- The loop of Go's `strings.FieldsFunc(s, f)` over the runes of `s`:
`start` is the field being read, if any (Go keeps its start index, here the
characters read so far), `spans` the fields already closed. When the runes are
exhausted a field still open is closed ("last field might end at EOF"). -/
def fieldsLoop (f : Char → Bool) : List Char → Option (List Char) → List (List Char) →
    List (List Char)
  | [], none, spans => spans
  | [], some cur, spans => spans ++ [cur]
  | c :: cs, start, spans =>
    if f c then
      match start with
      | some cur => fieldsLoop f cs none (spans ++ [cur])
      | none => fieldsLoop f cs none spans
    else
      match start with
      | some cur => fieldsLoop f cs (some (cur ++ [c])) spans
      | none => fieldsLoop f cs (some [c]) spans

/-- Go's `strings.FieldsFunc`. -/
def FieldsFunc (s : String) (f : Char → Bool) : List String :=
  (fieldsLoop f s.data none []).map String.mk

/-- Go's `strings.Fields`: "splits the string s around each instance of one or
more consecutive white space characters, as defined by unicode.IsSpace". (The
library has a fast path for ASCII-only strings, which computes the same
result.) -/
def Fields (s : String) : List String := FieldsFunc s unicodeIsSpace

/-! ## Helper functions of `main.go` -/

/-- The function `tokenize` of `main.go`: `return strings.Fields(text)`. -/
def tokenize (text : String) : List String := Fields text

/-- A `float64`, carried as the rational it denotes. -/
abbrev Float64 := ℚ

/-- The inner loop of `computeAttention` for row `i`: `make([]float64, n)`
followed by `for j := 0; j < n; j++` writing `1.0` on the diagonal and `0.5`
elsewhere. -/
def attentionRow (i n : Nat) : List Float64 :=
  (List.range n).foldl (fun row j => row.set j (if i = j then 1 else 1 / 2))
    (List.replicate n 0)

/-- The function `computeAttention` of `main.go`: `make([][]float64, n)` followed
by `for i := 0; i < n; i++` storing row `i`. -/
def computeAttention (tokens : List String) : List (List Float64) :=
  let n := tokens.length
  (List.range n).foldl (fun attention i => attention.set i (attentionRow i n))
    (List.replicate n [])

/-! ## `strconv.Atoi` -/

/-- Largest value of Go's `int` (64 bits). -/
def maxInt64 : Int := 9223372036854775807

/-- Smallest value of Go's `int` (64 bits). -/
def minInt64 : Int := -9223372036854775808

/-- The two errors of `strconv`: `ErrSyntax` and `ErrRange`. -/
inductive NumError where
  | malformed
  | outOfRange
deriving DecidableEq, Repr

/-- The value of a string of decimal digits: `n = n*10 + int(ch - '0')`. -/
def digitsValue (ds : List Char) : Nat :=
  ds.foldl (fun n ch => n * 10 + (ch.toNat - 48)) 0

/-- Go's `strconv.Atoi` (base 10, 64-bit `int`). An optional sign is followed by
at least one digit and nothing else, otherwise the result is `0` with
`ErrSyntax`; a value outside the range of `int` gives the nearest bound with
`ErrRange`. -/
def Atoi (s : String) : Int × Option NumError :=
  let s0 := s.data
  let neg : Bool := s0.head? == some '-'
  let ds := if neg || s0.head? == some '+' then s0.tail else s0
  if ds.isEmpty || !ds.all Char.isDigit then (0, some NumError.malformed)
  else
    let un := digitsValue ds
    if neg then
      if 9223372036854775808 < un then (minInt64, some NumError.outOfRange)
      else (-(un : Int), none)
    else
      if 9223372036854775808 ≤ un then (maxInt64, some NumError.outOfRange)
      else ((un : Int), none)

/-- The decimal rendering of an integer, as `encoding/json` writes the `id` of a
record and as a client puts it into the path `/api/texts/{id}`. -/
def decimal (i : Int) : String :=
  match i with
  | Int.ofNat n => String.mk (Nat.toDigits 10 n)
  | Int.negSucc n => String.mk ('-' :: Nat.toDigits 10 (n + 1))

/-! ## Responses -/

/-- A JSON value, as far as the handlers produce one. -/
inductive Json where
  | null
  | int (n : Int)
  | str (s : String)
  | arr (items : List Json)
  | obj (fields : List (String × Json))

/-- What a handler writes to the `http.ResponseWriter`: nothing, the plain-text
line of `http.Error`, or the value given to `json.NewEncoder(w).Encode`. -/
inductive Body where
  | empty
  | text (msg : String)
  | json (v : Json)

/-- Status code and body of a response. -/
structure Response where
  status : Nat
  body : Body

/-- The struct `TextData` of `main.go`, with its JSON tags `id` and `text`. -/
structure TextData where
  ID : Int
  Text : String
deriving DecidableEq, Repr

/-- The encoding of a `TextData` by `encoding/json`. -/
def TextData.toJson (t : TextData) : Json :=
  Json.obj [("id", Json.int t.ID), ("text", Json.str t.Text)]

/-- The encoding of a `[]TextData` by `encoding/json`: a nil slice is written as
`null`, any other slice as an array. -/
def encodeTexts : Option (List TextData) → Json
  | none => Json.null
  | some ts => Json.arr (ts.map TextData.toJson)

/-- Go's `append(texts, text)` on a possibly nil slice. -/
def goAppend (texts : Option (List TextData)) (text : TextData) : Option (List TextData) :=
  match texts with
  | none => some [text]
  | some ts => some (ts ++ [text])

/-- The function `http.Error(w, msg, code)`. -/
def httpError (msg : String) (code : Nat) : Response := ⟨code, Body.text msg⟩

/-- The call `json.NewEncoder(w).Encode(v)` on a fresh writer: status 200. -/
def encodeOK (v : Json) : Response := ⟨200, Body.json v⟩

/-! ## The table `texts` -/

/-- The engine's evaluation of `id = ?` for a row with key `id`, the parameter
being bound to the text taken from the request path. SQLite compares a text
with an INTEGER column after converting the text to a number when it looks
like one; the conversion belongs to the engine and is a parameter here. -/
abbrev KeyEq := String → Int → Bool

/-- The comparison `eq` treats the decimal rendering of `i` as the integer `i`. -/
def ComparesByValue (eq : KeyEq) (i : Int) : Prop :=
  ∀ j : Int, eq (decimal i) j = decide (j = i)

/-- A comparison that reads the parameter with `Atoi`. -/
def refKeyEq : KeyEq := fun s j => decide (Atoi s = (j, none))

/-- The state of the table `texts`: its rows in storage order, and the entry of
`sqlite_sequence` kept for AUTOINCREMENT (the largest key ever assigned). -/
structure DB where
  rows : List TextData
  seq : Int
deriving DecidableEq, Repr

/-- The table just after `createTable` on a fresh database file. -/
def DB.empty : DB := ⟨[], 0⟩

/-- The statement `SELECT id, text FROM texts`. -/
def DB.query (db : DB) (fault : Option String) : Except String (List TextData) :=
  match fault with
  | some e => Except.error e
  | none => Except.ok db.rows

/-- The statement `SELECT id, text FROM texts WHERE id = ?` run by `QueryRow` and
scanned: the first matching row, or `sql.ErrNoRows`. -/
def DB.queryRow (eq : KeyEq) (db : DB) (fault : Option String) (id : String) :
    Except String TextData :=
  match fault with
  | some e => Except.error e
  | none =>
    match db.rows.find? (fun r => eq id r.ID) with
    | some r => Except.ok r
    | none => Except.error "sql: no rows in result set"

/-- The key AUTOINCREMENT gives to the next row: one more than the largest key
that is or ever was in the table. -/
def DB.nextRowid (db : DB) : Int :=
  db.rows.foldl (fun m r => max m r.ID) db.seq + 1

/-- The statement `INSERT INTO texts(text) VALUES(?)`, returning
`LastInsertId`. When the keys are exhausted the engine reports an error. -/
def DB.insert (db : DB) (fault : Option String) (text : String) : Except String (Int × DB) :=
  match fault with
  | some e => Except.error e
  | none =>
    let id := db.nextRowid
    if maxInt64 < id then Except.error "database or disk is full"
    else Except.ok (id, ⟨db.rows ++ [⟨id, text⟩], id⟩)

/-- The statement `UPDATE texts SET text = ? WHERE id = ?`. -/
def DB.update (eq : KeyEq) (db : DB) (fault : Option String) (text id : String) :
    Except String DB :=
  match fault with
  | some e => Except.error e
  | none =>
    Except.ok ⟨db.rows.map (fun r => if eq id r.ID then ⟨r.ID, text⟩ else r), db.seq⟩

/-- The statement `DELETE FROM texts WHERE id = ?`. -/
def DB.delete (eq : KeyEq) (db : DB) (fault : Option String) (id : String) : Except String DB :=
  match fault with
  | some e => Except.error e
  | none => Except.ok ⟨db.rows.filter (fun r => !eq id r.ID), db.seq⟩

/-! ## The handlers of `main.go`

Each handler takes the table, the failure the engine reports for its statement
(if any) and the request: `id` is the path variable `params["id"]`, `text` the
value of the local `text` after `json.NewDecoder(r.Body).Decode(&text)`, whose
error the program ignores. It returns the response and the table afterwards. -/

/-- The handler `getTexts`. The slice `texts` is declared without a value, hence
nil, and grows by `append` once per row; `rows.Scan` into an `int` and a
`string` does not fail on the rows of this table. -/
def getTexts (db : DB) (fault : Option String) : Response :=
  match db.query fault with
  | Except.error e => httpError e 500
  | Except.ok rows => encodeOK (encodeTexts (rows.foldl goAppend none))

/-- The handler `getText`: every error of the query, `sql.ErrNoRows` included, is
answered with 404. -/
def getText (eq : KeyEq) (db : DB) (fault : Option String) (id : String) : Response :=
  match db.queryRow eq fault id with
  | Except.error e => httpError e 404
  | Except.ok text => encodeOK text.toJson

/-- The handler `createText`: the length test on `len(text.Text)`, then the
insertion; the record returned carries `LastInsertId`. -/
def createText (db : DB) (fault : Option String) (text : TextData) : Response × DB :=
  if goLen text.Text > 100 then (httpError "Text exceeds 100 characters" 400, db)
  else
    match db.insert fault text.Text with
    | Except.error e => (httpError e 500, db)
    | Except.ok (id, db') => (encodeOK (TextData.toJson ⟨id, text.Text⟩), db')

/-- The handler `updateText`: the length test, then the update; the record
returned carries `strconv.Atoi(id)`, whose error is discarded. -/
def updateText (eq : KeyEq) (db : DB) (fault : Option String) (id : String) (text : TextData) :
    Response × DB :=
  if goLen text.Text > 100 then (httpError "Text exceeds 100 characters" 400, db)
  else
    match db.update eq fault text.Text id with
    | Except.error e => (httpError e 500, db)
    | Except.ok db' => (encodeOK (TextData.toJson ⟨(Atoi id).1, text.Text⟩), db')

/-- The handler `deleteText`: the deletion, then `w.WriteHeader(204)`. -/
def deleteText (eq : KeyEq) (db : DB) (fault : Option String) (id : String) : Response × DB :=
  match db.delete eq fault id with
  | Except.error e => (httpError e 500, db)
  | Except.ok db' => (⟨204, Body.empty⟩, db')

/-! ## Sequences of requests -/

/-- A request that can change the table. -/
inductive Request where
  | create (fault : Option String) (text : TextData)
  | update (fault : Option String) (id : String) (text : TextData)
  | delete (fault : Option String) (id : String)

/-- The table after one request. -/
def step (eq : KeyEq) (db : DB) : Request → DB
  | Request.create fault text => (createText db fault text).2
  | Request.update fault id text => (updateText eq db fault id text).2
  | Request.delete fault id => (deleteText eq db fault id).2

/-- The table after a sequence of requests, served one after the other. -/
def run (eq : KeyEq) (db : DB) (reqs : List Request) : DB :=
  reqs.foldl (step eq) db

/-! ## The spec's reading of the tokenizer -/

/-- The whitespace characters the specification names: space, tab and newline. -/
def specWhitespace (c : Char) : Bool :=
  c == ' ' || c == Char.ofNat 9 || c == Char.ofNat 10

/-- Splitting on runs of separator characters, as the specification words it: cut
the text at every separator and discard the empty fragments; what remains are
the maximal non-empty runs of non-separator characters, left to right. -/
def splitRuns (sep : Char → Bool) (text : String) : List String :=
  ((text.data.splitOnP sep).filter (fun frag => !frag.isEmpty)).map String.mk

/-- The bound the table keeps: every row holds a text of at most 100 bytes. -/
def Bounded (db : DB) : Prop := ∀ r ∈ db.rows, goLen r.Text ≤ 100

/-! # Properties -/

/-! ## `computeAttention` -/

theorem foldl_set_range {α : Type} (f : Nat → α) : ∀ (k : Nat) (l : List α), k ≤ l.length →
    (List.range k).foldl (fun acc j => acc.set j (f j)) l = (List.range k).map f ++ l.drop k := by
  intro k
  induction k with
  | zero => intro l _; simp
  | succ k ih =>
    intro l hk
    rw [List.range_succ, List.foldl_append, ih l (Nat.le_of_succ_le hk)]
    have hlen : ((List.range k).map f).length = k := by simp
    simp only [List.foldl_cons, List.foldl_nil, List.map_append, List.map_cons, List.map_nil]
    rw [List.set_append_right _ _ (by simp)]
    simp only [hlen, Nat.sub_self, List.append_assoc]
    congr 1
    rw [List.drop_eq_getElem_cons (by omega : k < l.length)]
    simp [List.set]

theorem foldl_set_replicate {α : Type} (f : Nat → α) (n : Nat) (z : α) :
    (List.range n).foldl (fun acc j => acc.set j (f j)) (List.replicate n z)
      = (List.range n).map f := by
  rw [foldl_set_range f n _ (by simp)]; simp

theorem attentionRow_eq (i n : Nat) :
    attentionRow i n = (List.range n).map (fun j => if i = j then (1 : Float64) else 1 / 2) := by
  unfold attentionRow
  exact foldl_set_replicate (fun j => if i = j then (1 : Float64) else 1 / 2) n 0

theorem computeAttention_eq (tokens : List String) :
    computeAttention tokens = (List.range tokens.length).map (fun i =>
      (List.range tokens.length).map (fun j => if i = j then (1 : Float64) else 1 / 2)) := by
  unfold computeAttention
  simp only []
  rw [foldl_set_replicate (fun i => attentionRow i tokens.length) tokens.length []]
  simp only [attentionRow_eq]

/-- Claim C1: for every token sequence of length N, `computeAttention` returns a
matrix with exactly N rows, each of exactly N entries, whose entry (i, j) is
exactly 1.0 when i = j and exactly 0.5 otherwise; for N = 0 the result is the
empty matrix. -/
theorem computeAttention_matrix (tokens : List String) :
    (computeAttention tokens).length = tokens.length ∧
    (∀ row ∈ computeAttention tokens, row.length = tokens.length) ∧
    (∀ i j : Nat, i < tokens.length → j < tokens.length →
      (computeAttention tokens)[i]?.bind (fun row => row[j]?)
        = some (if i = j then (1 : Float64) else 1 / 2)) ∧
    (tokens = [] → computeAttention tokens = []) := by
  rw [computeAttention_eq]
  refine ⟨by simp, ?_, ?_, ?_⟩
  · intro row hrow
    simp only [List.mem_map] at hrow
    obtain ⟨i, _, rfl⟩ := hrow
    simp
  · intro i j hi hj
    simp [List.getElem?_map, List.getElem?_range, hi, hj]
  · rintro rfl
    simp

/-- Witness of C1 : the tokens of "a b c" give the 3x3 matrix with diagonal 1.0 and
0.5 elsewhere. -/
theorem computeAttention_matrix_witness :
    tokenize "a b c" = ["a", "b", "c"] ∧
    (computeAttention (tokenize "a b c"))[0]?.bind (fun row => row[1]?) = some (1 / 2) ∧
    (computeAttention (tokenize "a b c"))[2]?.bind (fun row => row[2]?) = some 1 ∧
    computeAttention (tokenize "a b c")
      = [[1, 1 / 2, 1 / 2], [1 / 2, 1, 1 / 2], [1 / 2, 1 / 2, 1]] := by
  have htok : tokenize "a b c" = ["a", "b", "c"] := by decide
  refine ⟨htok, ?_, ?_, ?_⟩
  · have h := (computeAttention_matrix (tokenize "a b c")).2.2.1 0 1
      (by rw [htok]; decide) (by rw [htok]; decide)
    simpa using h
  · have h := (computeAttention_matrix (tokenize "a b c")).2.2.1 2 2
      (by rw [htok]; decide) (by rw [htok]; decide)
    simpa using h
  · rw [htok, computeAttention_eq]
    simp [List.range, List.range.loop]

/-! ## `tokenize` -/

/-- The fragments kept by the loop, given the field that is open. -/
theorem fieldsLoop_eq (f : Char → Bool) : ∀ (l : List Char) (start : Option (List Char))
    (spans : List (List Char)), (∀ cur, start = some cur → cur ≠ []) →
    fieldsLoop f l start spans = spans ++
      ((match start with
        | none => l.splitOnP f
        | some cur => (l.splitOnP f).modifyHead (fun frag => cur ++ frag)).filter
          (fun frag => !frag.isEmpty)) := by
  intro l
  induction l with
  | nil =>
    intro start spans h
    cases start with
    | none => simp [fieldsLoop, List.splitOnP_nil]
    | some cur =>
      have hc : cur ≠ [] := h cur rfl
      simp [fieldsLoop, List.splitOnP_nil, hc]
  | cons c cs ih =>
    intro start spans h
    rw [List.splitOnP_cons]
    by_cases hf : f c = true
    · cases start with
      | none =>
        simp only [fieldsLoop, hf, if_true]
        rw [ih none spans (by simp)]
        simp
      | some cur =>
        have hc : cur ≠ [] := h cur rfl
        simp only [fieldsLoop, hf, if_true]
        rw [ih none (spans ++ [cur]) (by simp)]
        simp [hc]
    · cases start with
      | none =>
        simp only [fieldsLoop, hf]
        rw [ih (some [c]) spans (by simp)]
        simp
      | some cur =>
        simp only [fieldsLoop, hf]
        rw [ih (some (cur ++ [c])) spans (by simp)]
        simp [List.modifyHead_modifyHead, Function.comp_def]

theorem splitOnP_no_sep (p : Char → Bool) : ∀ (l : List Char),
    ∀ frag ∈ l.splitOnP p, ∀ c ∈ frag, p c = false := by
  intro l
  induction l with
  | nil => intro frag h c hc; simp [List.splitOnP_nil] at h; subst h; simp at hc
  | cons x xs ih =>
    intro frag h c hc
    rw [List.splitOnP_cons] at h
    by_cases hp : p x = true
    · rw [if_pos hp, List.mem_cons] at h
      rcases h with h | h
      · rw [h] at hc; simp at hc
      · exact ih frag h c hc
    · rw [if_neg hp] at h
      cases hs : xs.splitOnP p with
      | nil => rw [hs] at h; simp at h
      | cons y ys =>
        rw [hs] at h ih
        rw [List.modifyHead_cons, List.mem_cons] at h
        rcases h with h | h
        · rw [h, List.mem_cons] at hc
          rcases hc with hc | hc
          · rw [hc]; simpa using hp
          · exact ih y (List.mem_cons_self _ _) c hc
        · exact ih frag (List.mem_cons_of_mem _ h) c hc

theorem tokenize_eq_splitRuns (text : String) : tokenize text = splitRuns unicodeIsSpace text := by
  unfold tokenize Fields FieldsFunc splitRuns
  rw [fieldsLoop_eq unicodeIsSpace text.data none [] (by simp)]
  simp

theorem specWhitespace_isSpace (c : Char) (h : specWhitespace c = true) :
    unicodeIsSpace c = true := by
  simp only [specWhitespace, Bool.or_eq_true, beq_iff_eq] at h
  rcases h with (rfl | rfl) | rfl <;> decide

theorem splitOnP_congr (p q : Char → Bool) : ∀ (l : List Char), (∀ c ∈ l, p c = q c) →
    l.splitOnP p = l.splitOnP q := by
  intro l
  induction l with
  | nil => intro _; simp [List.splitOnP_nil]
  | cons x xs ih =>
    intro h
    rw [List.splitOnP_cons, List.splitOnP_cons, h x (List.mem_cons_self _ _),
      ih (fun c hc => h c (List.mem_cons_of_mem _ hc))]

/-- Claim C7, amended: `tokenize` splits on runs of the whitespace characters of
`unicode.IsSpace` (among them space, tab and newline, but also carriage return,
vertical tab, form feed and the Unicode spaces) and discards empty fragments:
the result is exactly the sequence of the maximal non-empty runs of
non-whitespace characters; every token is non-empty and contains no whitespace
character, in particular no space, tab or newline. On a text whose only
whitespace characters are space, tab and newline the result is the sequence of
runs the specification describes. -/
theorem tokenize_runs (text : String) :
    tokenize text = splitRuns unicodeIsSpace text ∧
    (∀ tok ∈ tokenize text, tok ≠ "" ∧
      ∀ c ∈ tok.data, unicodeIsSpace c = false ∧ specWhitespace c = false) ∧
    ((∀ c ∈ text.data, unicodeIsSpace c = specWhitespace c) →
      tokenize text = splitRuns specWhitespace text) := by
  refine ⟨tokenize_eq_splitRuns text, ?_, ?_⟩
  · intro tok htok
    rw [tokenize_eq_splitRuns] at htok
    simp only [splitRuns, List.mem_map, List.mem_filter] at htok
    obtain ⟨frag, ⟨hmem, hne⟩, rfl⟩ := htok
    constructor
    · intro h
      have : frag = [] := by simpa using congrArg String.data h
      simp [this] at hne
    · intro c hc
      have h1 : unicodeIsSpace c = false :=
        splitOnP_no_sep unicodeIsSpace text.data frag hmem c hc
      refine ⟨h1, ?_⟩
      by_contra h2
      have := specWhitespace_isSpace c (by simpa using h2)
      simp [h1] at this
  · intro h
    rw [tokenize_eq_splitRuns]
    unfold splitRuns
    rw [splitOnP_congr unicodeIsSpace specWhitespace text.data h]

/-- Witness of C7 (amended) on a text with leading, doubled and trailing blanks. -/
theorem tokenize_runs_witness :
    "ab" ∈ tokenize " ab\t\ncd " ∧
    (∀ c ∈ " ab\t\ncd ".data, unicodeIsSpace c = specWhitespace c) ∧
    ("ab" ≠ "" ∧ ∀ c ∈ "ab".data, unicodeIsSpace c = false ∧ specWhitespace c = false) ∧
    tokenize " ab\t\ncd " = splitRuns specWhitespace " ab\t\ncd " ∧
    tokenize " ab\t\ncd " = ["ab", "cd"] :=
  ⟨by decide, by decide, (tokenize_runs " ab\t\ncd ").2.1 "ab" (by decide),
    (tokenize_runs " ab\t\ncd ").2.2 (by decide), by decide⟩

/-- Counterexample to C7 as stated: a carriage return is none of space, tab and
newline, yet `tokenize` splits on it. The specification's runs of "a\rb" are the
single token "a\rb"; the program returns "a" and "b". -/
theorem tokenize_carriage_return :
    tokenize "a\rb" = ["a", "b"] ∧ splitRuns specWhitespace "a\rb" = ["a\rb"] ∧
    tokenize "a\rb" ≠ splitRuns specWhitespace "a\rb" := by decide

theorem fieldsLoop_all_sep (f : Char → Bool) : ∀ (l : List Char), (∀ c ∈ l, f c = true) →
    fieldsLoop f l none [] = [] := by
  intro l
  induction l with
  | nil => intro _; simp [fieldsLoop]
  | cons c cs ih =>
    intro h
    have hc : f c = true := h c (by simp)
    simp only [fieldsLoop, hc, if_true]
    exact ih (fun d hd => h d (by simp [hd]))

/-- Claim C8: for every text that is empty or consists only of whitespace
characters (space, tab, newline or any other character of `unicode.IsSpace`),
`tokenize` returns the empty sequence. -/
theorem tokenize_blank (text : String) (h : ∀ c ∈ text.data, unicodeIsSpace c = true) :
    tokenize text = [] := by
  unfold tokenize Fields FieldsFunc
  rw [fieldsLoop_all_sep unicodeIsSpace text.data h]
  rfl

/-- Witness of C8 : the empty text and the text of three spaces. -/
theorem tokenize_blank_witness :
    (∀ c ∈ "   ".data, unicodeIsSpace c = true) ∧ tokenize "" = [] ∧ tokenize "   " = [] ∧
    tokenize " \t\n" = [] :=
  ⟨by decide, tokenize_blank "" (by decide), tokenize_blank "   " (by decide),
    tokenize_blank " \t\n" (by decide)⟩

/-! ## Decimal rendering and `Atoi` -/

theorem digitChar_spec : ∀ d < 10, (Nat.digitChar d).isDigit = true ∧
    (Nat.digitChar d).toNat - 48 = d ∧ Nat.digitChar d ≠ '-' ∧ Nat.digitChar d ≠ '+' := by
  decide

theorem toDigitsCore_all_digit : ∀ (fuel n : Nat) (acc : List Char),
    acc.all Char.isDigit = true → (Nat.toDigitsCore 10 fuel n acc).all Char.isDigit = true := by
  intro fuel
  induction fuel with
  | zero => intro n acc h; simpa [Nat.toDigitsCore] using h
  | succ fuel ih =>
    intro n acc h
    have hd := (digitChar_spec (n % 10) (Nat.mod_lt _ (by decide))).1
    have hacc : (Nat.digitChar (n % 10) :: acc).all Char.isDigit = true := by
      simp only [List.all_cons, hd, h, Bool.and_self]
    simp only [Nat.toDigitsCore]
    split
    · exact hacc
    · exact ih _ _ hacc

theorem toDigitsCore_ne_nil : ∀ (fuel n : Nat) (acc : List Char),
    (0 < fuel ∨ acc ≠ []) → Nat.toDigitsCore 10 fuel n acc ≠ [] := by
  intro fuel
  induction fuel with
  | zero => intro n acc h; rcases h with h | h; · omega
            simpa [Nat.toDigitsCore] using h
  | succ fuel ih =>
    intro n acc _
    simp only [Nat.toDigitsCore]
    split
    · simp
    · exact ih _ _ (Or.inr (by simp))

theorem toDigitsCore_value : ∀ (fuel n : Nat) (acc : List Char), n < fuel →
    (Nat.toDigitsCore 10 fuel n acc).foldl (fun m ch => m * 10 + (ch.toNat - 48)) 0
      = acc.foldl (fun m ch => m * 10 + (ch.toNat - 48)) n := by
  intro fuel
  induction fuel with
  | zero => intro n acc h; omega
  | succ fuel ih =>
    intro n acc h
    have hd := (digitChar_spec (n % 10) (Nat.mod_lt _ (by decide))).2.1
    simp only [Nat.toDigitsCore]
    split
    · rename_i h0
      have hn : n % 10 = n := Nat.mod_eq_of_lt (by omega)
      rw [hn] at hd
      simp only [List.foldl_cons, hn, hd, Nat.zero_mul, Nat.zero_add]
    · rename_i h0
      rw [ih (n / 10) _ (by omega)]
      simp only [List.foldl_cons, hd]
      congr 1
      omega

theorem toDigits_spec (n : Nat) :
    (Nat.toDigits 10 n).all Char.isDigit = true ∧ Nat.toDigits 10 n ≠ [] ∧
    digitsValue (Nat.toDigits 10 n) = n := by
  refine ⟨toDigitsCore_all_digit _ _ _ (by simp), toDigitsCore_ne_nil _ _ _ (Or.inl (by omega)), ?_⟩
  unfold digitsValue Nat.toDigits
  rw [toDigitsCore_value _ _ _ (by omega)]
  simp

theorem toDigits_head (n : Nat) :
    (Nat.toDigits 10 n).head? ≠ some '-' ∧ (Nat.toDigits 10 n).head? ≠ some '+' := by
  obtain ⟨hall, hne, _⟩ := toDigits_spec n
  cases h : Nat.toDigits 10 n with
  | nil => exact absurd h hne
  | cons c cs =>
    rw [h] at hall
    simp only [List.all_cons, Bool.and_eq_true] at hall
    have hc := hall.1
    constructor
    · intro hh
      simp only [List.head?_cons, Option.some.injEq] at hh
      rw [hh] at hc; exact absurd hc (by decide)
    · intro hh
      simp only [List.head?_cons, Option.some.injEq] at hh
      rw [hh] at hc; exact absurd hc (by decide)

/-- Reading back the decimal rendering of an `int` gives the `int`, without error. -/
theorem Atoi_decimal (i : Int) (hlo : minInt64 ≤ i) (hhi : i ≤ maxInt64) :
    Atoi (decimal i) = (i, none) := by
  cases i with
  | ofNat n =>
    obtain ⟨hall, hne, hval⟩ := toDigits_spec n
    obtain ⟨h1, h2⟩ := toDigits_head n
    have hn : ¬ (9223372036854775808 ≤ n) := by
      simp only [maxInt64] at hhi
      have : (n : Int) ≤ 9223372036854775807 := hhi
      omega
    simp [Atoi, decimal, h1, h2, hall, hne, hval, hn]
  | negSucc n =>
    obtain ⟨hall, hne, hval⟩ := toDigits_spec (n + 1)
    have hn : ¬ (9223372036854775808 < n + 1) := by
      simp only [minInt64] at hlo
      have : (-9223372036854775808 : Int) ≤ Int.negSucc n := hlo
      rw [Int.negSucc_eq] at this
      omega
    simp [Atoi, decimal, hall, hne, hval, hn, Int.negSucc_eq]

theorem refKeyEq_comparesByValue (i : Int) (hlo : minInt64 ≤ i) (hhi : i ≤ maxInt64) :
    ComparesByValue refKeyEq i := by
  intro j
  simp [refKeyEq, Atoi_decimal i hlo hhi, eq_comm]

/-! ## The table -/

theorem le_foldl_max (rows : List TextData) : ∀ (m : Int),
    m ≤ rows.foldl (fun m r => max m r.ID) m ∧
    ∀ r ∈ rows, r.ID ≤ rows.foldl (fun m r => max m r.ID) m := by
  induction rows with
  | nil => intro m; simp
  | cons x xs ih =>
    intro m
    obtain ⟨h1, h2⟩ := ih (max m x.ID)
    simp only [List.foldl_cons, List.mem_cons]
    refine ⟨le_trans (le_max_left _ _) h1, ?_⟩
    rintro r (rfl | hr)
    · exact le_trans (le_max_right _ _) h1
    · exact h2 r hr

theorem lt_nextRowid (db : DB) : ∀ r ∈ db.rows, r.ID < db.nextRowid := by
  intro r hr
  have := (le_foldl_max db.rows db.seq).2 r hr
  unfold DB.nextRowid
  omega

theorem insert_ok_iff (db : DB) (text : String) :
    db.nextRowid ≤ maxInt64 ↔
      db.insert none text
        = Except.ok (db.nextRowid, ⟨db.rows ++ [⟨db.nextRowid, text⟩], db.nextRowid⟩) := by
  unfold DB.insert
  constructor
  · intro h
    simp [not_lt.mpr h]
  · intro h
    by_contra hc
    simp [not_le.mp hc] at h

theorem insert_ok_inv (db db' : DB) (text : String) (id : Int)
    (h : db.insert none text = Except.ok (id, db')) :
    id = db.nextRowid ∧ db' = ⟨db.rows ++ [⟨id, text⟩], id⟩ := by
  unfold DB.insert at h
  simp only [] at h
  split at h
  · cases h
  · simp only [Except.ok.injEq, Prod.mk.injEq] at h
    obtain ⟨h1, h2⟩ := h
    subst h1
    exact ⟨rfl, h2.symm⟩

theorem utf8ByteSize_go_ge (cs : List Char) : cs.length ≤ String.utf8ByteSize.go cs := by
  induction cs with
  | nil => simp [String.utf8ByteSize.go]
  | cons c cs ih =>
    have := Char.utf8Size_pos c
    simp only [String.utf8ByteSize.go, List.length_cons]
    omega

theorem length_le_goLen (s : String) : s.length ≤ goLen s := by
  cases s with
  | mk cs => exact utf8ByteSize_go_ge cs

theorem createText_rows (db : DB) (fault : Option String) (text : TextData) :
    (createText db fault text).2 = db ∨
    (goLen text.Text ≤ 100 ∧
      (createText db fault text).2.rows = db.rows ++ [⟨db.nextRowid, text.Text⟩]) := by
  by_cases hlen : goLen text.Text > 100
  · left; simp [createText, hlen]
  · cases fault with
    | some e => left; simp [createText, hlen, DB.insert]
    | none =>
      by_cases hfull : maxInt64 < db.nextRowid
      · left; simp [createText, hlen, DB.insert, hfull]
      · right; exact ⟨not_lt.mp hlen, by simp [createText, hlen, DB.insert, hfull]⟩

theorem updateText_rows (eq : KeyEq) (db : DB) (fault : Option String) (id : String)
    (text : TextData) :
    (updateText eq db fault id text).2 = db ∨
    (goLen text.Text ≤ 100 ∧
      (updateText eq db fault id text).2.rows
        = db.rows.map (fun r => if eq id r.ID then ⟨r.ID, text.Text⟩ else r)) := by
  by_cases hlen : goLen text.Text > 100
  · left; simp [updateText, hlen]
  · cases fault with
    | some e => left; simp [updateText, hlen, DB.update]
    | none => right; exact ⟨not_lt.mp hlen, by simp [updateText, hlen, DB.update]⟩

/-- What `updateText` does for an arbitrary path variable: the record returned
carries whatever `Atoi` makes of the path (0 when it is not a number). -/
theorem updateText_any_path (eq : KeyEq) (db : DB) (id : String) (text : TextData)
    (hlen : goLen text.Text ≤ 100) :
    updateText eq db none id text
      = (⟨200, Body.json (TextData.toJson ⟨(Atoi id).1, text.Text⟩)⟩,
         ⟨db.rows.map (fun r => if eq id r.ID then ⟨r.ID, text.Text⟩ else r), db.seq⟩) := by
  simp [updateText, not_lt.mpr hlen, DB.update, encodeOK]

theorem deleteText_rows (eq : KeyEq) (db : DB) (fault : Option String) (id : String) :
    (deleteText eq db fault id).2 = db ∨
    (deleteText eq db fault id).2.rows = db.rows.filter (fun r => !eq id r.ID) := by
  cases fault with
  | some e => left; simp [deleteText, DB.delete]
  | none => right; simp [deleteText, DB.delete]

theorem step_bounded (eq : KeyEq) (db : DB) (req : Request) (h : Bounded db) :
    Bounded (step eq db req) := by
  cases req with
  | create fault text =>
    rcases createText_rows db fault text with hc | ⟨hlen, hc⟩
    · simpa [step, hc] using h
    · intro r hr
      simp only [step, hc, List.mem_append, List.mem_singleton] at hr
      rcases hr with hr | hr
      · exact h r hr
      · rw [hr]; exact hlen
  | update fault id text =>
    rcases updateText_rows eq db fault id text with hc | ⟨hlen, hc⟩
    · simpa [step, hc] using h
    · intro r hr
      simp only [step, hc, List.mem_map] at hr
      obtain ⟨r0, hr0, hr1⟩ := hr
      rw [← hr1]
      split
      · exact hlen
      · exact h r0 hr0
  | delete fault id =>
    rcases deleteText_rows eq db fault id with hc | hc
    · simpa [step, hc] using h
    · intro r hr
      simp only [step, hc] at hr
      exact h r (List.mem_filter.mp hr).1

theorem run_bounded (eq : KeyEq) (reqs : List Request) : ∀ (db : DB), Bounded db →
    Bounded (run eq db reqs) := by
  induction reqs with
  | nil => intro db h; exact h
  | cons req reqs ih =>
    intro db h
    exact ih (step eq db req) (step_bounded eq db req h)

/-! ## The handlers -/

/-- Claim C2: for every table and every text with `len(text) <= 100` (the `len` of
the program, which counts bytes), when the store reports no error on the
insertion, `createText` responds 200 with the record of the new id and the
submitted text, and a `getText` for the returned id, issued afterwards and
served without a store error, responds 200 with that exact id and text. The
engine is taken to compare the decimal text of the id with the integer key by
value. -/
theorem createText_then_getText (eq : KeyEq) (db db' : DB) (text : TextData) (id : Int)
    (hlen : goLen text.Text ≤ 100)
    (hstore : db.insert none text.Text = Except.ok (id, db'))
    (heq : ComparesByValue eq id) :
    createText db none text = (⟨200, Body.json (TextData.toJson ⟨id, text.Text⟩)⟩, db') ∧
    getText eq db' none (decimal id) = ⟨200, Body.json (TextData.toJson ⟨id, text.Text⟩)⟩ := by
  obtain ⟨hid, hdb⟩ := insert_ok_inv db db' text.Text id hstore
  constructor
  · simp [createText, not_lt.mpr hlen, hstore, encodeOK]
  · have hfind : db'.rows.find? (fun r => eq (decimal id) r.ID) = some ⟨id, text.Text⟩ := by
      rw [hdb]
      simp only [List.find?_append]
      have hnone : db.rows.find? (fun r => eq (decimal id) r.ID) = none := by
        rw [List.find?_eq_none]
        intro r hr
        have := lt_nextRowid db r hr
        rw [heq r.ID]
        simp only [decide_eq_true_eq]
        omega
      rw [hnone]
      simp [heq id]
    simp [getText, DB.queryRow, hfind, encodeOK]

/-- Witness of C2 : the scenario of the specification, "hello" stored in the empty
table under the id 1 and read back. -/
theorem createText_then_getText_witness :
    goLen "hello" ≤ 100 ∧
    DB.empty.insert none "hello" = Except.ok (1, ⟨[⟨1, "hello"⟩], 1⟩) ∧
    ComparesByValue refKeyEq 1 ∧
    decimal 1 = "1" ∧
    createText DB.empty none ⟨0, "hello"⟩
      = (⟨200, Body.json (TextData.toJson ⟨1, "hello"⟩)⟩, ⟨[⟨1, "hello"⟩], 1⟩) ∧
    getText refKeyEq ⟨[⟨1, "hello"⟩], 1⟩ none (decimal 1)
      = ⟨200, Body.json (TextData.toJson ⟨1, "hello"⟩)⟩ :=
  ⟨by decide, rfl, refKeyEq_comparesByValue 1 (by decide) (by decide), by decide,
    createText_then_getText refKeyEq DB.empty ⟨[⟨1, "hello"⟩], 1⟩ ⟨0, "hello"⟩ 1
      (by decide) rfl (refKeyEq_comparesByValue 1 (by decide) (by decide))⟩

/-- Claim C3: for every table, every id and every text longer than 100 (in bytes,
as the program counts, or in characters), `createText` and `updateText` both
respond 400 with the validation message and leave the table exactly as it was,
whatever the store would have reported. -/
theorem long_text_rejected (eq : KeyEq) (db : DB) (fault : Option String) (id : String)
    (text : TextData) (hlen : 100 < goLen text.Text ∨ 100 < text.Text.length) :
    createText db fault text = (⟨400, Body.text "Text exceeds 100 characters"⟩, db) ∧
    updateText eq db fault id text = (⟨400, Body.text "Text exceeds 100 characters"⟩, db) := by
  have hbytes : 100 < goLen text.Text := by
    rcases hlen with h | h
    · exact h
    · exact lt_of_lt_of_le h (length_le_goLen text.Text)
  simp [createText, updateText, hbytes, httpError]

/-- Witness of C3 : a text of 101 letters against a table holding one record. -/
theorem long_text_rejected_witness :
    goLen (String.mk (List.replicate 101 'a')) = 101 ∧
    createText ⟨[⟨1, "hello"⟩], 1⟩ none ⟨0, String.mk (List.replicate 101 'a')⟩
      = (⟨400, Body.text "Text exceeds 100 characters"⟩, ⟨[⟨1, "hello"⟩], 1⟩) ∧
    updateText refKeyEq ⟨[⟨1, "hello"⟩], 1⟩ none "1" ⟨0, String.mk (List.replicate 101 'a')⟩
      = (⟨400, Body.text "Text exceeds 100 characters"⟩, ⟨[⟨1, "hello"⟩], 1⟩) :=
  ⟨by decide,
    long_text_rejected refKeyEq ⟨[⟨1, "hello"⟩], 1⟩ none "1"
      ⟨0, String.mk (List.replicate 101 'a')⟩ (Or.inl (by decide))⟩

/-- Claim C4: for every table and every id, whether or not a record with that id
exists, when the store reports no error `deleteText` responds 204 with an empty
body, a `getText` for the same id issued afterwards responds 404, and the
records the id does not designate are kept unchanged and in order: for the
decimal path of an integer id these are the records with another id. -/
theorem deleteText_then_getText (eq : KeyEq) (db : DB) (id : String) :
    deleteText eq db none id
      = (⟨204, Body.empty⟩, ⟨db.rows.filter (fun r => !eq id r.ID), db.seq⟩) ∧
    getText eq (deleteText eq db none id).2 none id
      = ⟨404, Body.text "sql: no rows in result set"⟩ ∧
    (∀ fault, (getText eq (deleteText eq db none id).2 fault id).status = 404) ∧
    (∀ i : Int, id = decimal i → ComparesByValue eq i →
      (deleteText eq db none id).2.rows = db.rows.filter (fun r => decide (r.ID ≠ i))) := by
  have hdel : deleteText eq db none id
      = (⟨204, Body.empty⟩, ⟨db.rows.filter (fun r => !eq id r.ID), db.seq⟩) := by
    simp [deleteText, DB.delete]
  have hfind : (db.rows.filter (fun r => !eq id r.ID)).find? (fun r => eq id r.ID) = none := by
    rw [List.find?_eq_none]
    intro r hr
    have := (List.mem_filter.mp hr).2
    simpa using this
  refine ⟨hdel, ?_, ?_, ?_⟩
  · simp [hdel, getText, DB.queryRow, hfind, httpError]
  · intro fault
    cases fault with
    | some e => simp [getText, DB.queryRow, httpError]
    | none => simp [hdel, getText, DB.queryRow, hfind, httpError]
  · intro i hi heq
    rw [hdel, hi]
    simp only
    apply List.filter_congr
    intro r _
    rw [heq r.ID]
    simp

/-- Witness of C4 : deleting the id 1 from a table of two records. -/
theorem deleteText_then_getText_witness :
    "1" = decimal 1 ∧ ComparesByValue refKeyEq 1 ∧
    (deleteText refKeyEq ⟨[⟨1, "hello"⟩, ⟨2, "world"⟩], 2⟩ none "1").2.rows
      = [⟨1, "hello"⟩, ⟨2, "world"⟩].filter (fun r => decide (r.ID ≠ 1)) ∧
    [(⟨1, "hello"⟩ : TextData), ⟨2, "world"⟩].filter (fun r => decide (r.ID ≠ 1))
      = [⟨2, "world"⟩] :=
  ⟨by decide, refKeyEq_comparesByValue 1 (by decide) (by decide),
    (deleteText_then_getText refKeyEq ⟨[⟨1, "hello"⟩, ⟨2, "world"⟩], 2⟩ "1").2.2.2 1
      (by decide) (refKeyEq_comparesByValue 1 (by decide) (by decide)),
    by decide⟩

/-- Claim C5: for every table, every id (a Go `int`, sent as its decimal path) and
every text with `len(text) <= 100`, when the store reports no error `updateText`
responds 200 with the record of the requested id and the submitted text;
afterwards a record that had that id has the same id and the new text and every
other record is unchanged; when no record had that id the table is unchanged
and the response is the same success record. -/
theorem updateText_ok (eq : KeyEq) (db : DB) (i : Int) (text : TextData)
    (hlen : goLen text.Text ≤ 100) (hlo : minInt64 ≤ i) (hhi : i ≤ maxInt64)
    (heq : ComparesByValue eq i) :
    updateText eq db none (decimal i) text
      = (⟨200, Body.json (TextData.toJson ⟨i, text.Text⟩)⟩,
         ⟨db.rows.map (fun r => if r.ID = i then ⟨i, text.Text⟩ else r), db.seq⟩) ∧
    ((∀ r ∈ db.rows, r.ID ≠ i) → (updateText eq db none (decimal i) text).2 = db) := by
  have hupd : updateText eq db none (decimal i) text
      = (⟨200, Body.json (TextData.toJson ⟨i, text.Text⟩)⟩,
         ⟨db.rows.map (fun r => if r.ID = i then ⟨i, text.Text⟩ else r), db.seq⟩) := by
    simp only [updateText, not_lt.mpr hlen, if_false, DB.update, encodeOK, Atoi_decimal i hlo hhi]
    congr 2
    apply List.map_congr_left
    intro r _
    rw [heq r.ID]
    by_cases h : r.ID = i
    · simp [h]
    · simp [h]
  refine ⟨hupd, ?_⟩
  intro hnone
  rw [hupd]
  have : db.rows.map (fun r => if r.ID = i then (⟨i, text.Text⟩ : TextData) else r) = db.rows := by
    conv_rhs => rw [← List.map_id db.rows]
    apply List.map_congr_left
    intro r hr
    simp [hnone r hr]
  simp [this]

/-- Witness of C5 : an update of the id 2 in a table of two records, and an update
of the absent id 7. -/
theorem updateText_ok_witness :
    goLen "there" ≤ 100 ∧ ComparesByValue refKeyEq 2 ∧
    updateText refKeyEq ⟨[⟨1, "hello"⟩, ⟨2, "world"⟩], 2⟩ none (decimal 2) ⟨0, "there"⟩
      = (⟨200, Body.json (TextData.toJson ⟨2, "there"⟩)⟩,
         ⟨[⟨1, "hello"⟩, ⟨2, "world"⟩].map
            (fun r => if r.ID = 2 then ⟨2, "there"⟩ else r), 2⟩) ∧
    [(⟨1, "hello"⟩ : TextData), ⟨2, "world"⟩].map
        (fun r => if r.ID = 2 then ⟨2, "there"⟩ else r) = [⟨1, "hello"⟩, ⟨2, "there"⟩] ∧
    (updateText refKeyEq ⟨[⟨1, "hello"⟩, ⟨2, "world"⟩], 2⟩ none (decimal 7) ⟨0, "there"⟩).2
      = ⟨[⟨1, "hello"⟩, ⟨2, "world"⟩], 2⟩ :=
  ⟨by decide, refKeyEq_comparesByValue 2 (by decide) (by decide),
    (updateText_ok refKeyEq ⟨[⟨1, "hello"⟩, ⟨2, "world"⟩], 2⟩ 2 ⟨0, "there"⟩
      (by decide) (by decide) (by decide)
      (refKeyEq_comparesByValue 2 (by decide) (by decide))).1,
    by decide,
    (updateText_ok refKeyEq ⟨[⟨1, "hello"⟩, ⟨2, "world"⟩], 2⟩ 7 ⟨0, "there"⟩
      (by decide) (by decide) (by decide)
      (refKeyEq_comparesByValue 7 (by decide) (by decide))).2 (by decide)⟩

/-- Claim C6: starting from the empty table, after any finite sequence of
`createText`, `updateText` and `deleteText` requests, with arbitrary ids,
payloads and store failures, every persisted record has a text of at most 100
bytes, hence of at most 100 characters. -/
theorem persisted_text_bounded (eq : KeyEq) (reqs : List Request) :
    ∀ r ∈ (run eq DB.empty reqs).rows, goLen r.Text ≤ 100 ∧ r.Text.length ≤ 100 := by
  intro r hr
  have h := run_bounded eq reqs DB.empty (by intro r hr; simp [DB.empty] at hr) r hr
  exact ⟨h, le_trans (length_le_goLen r.Text) h⟩

set_option maxRecDepth 20000 in
/-- Witness of C6 : a create, a rejected over-long create, an update and a delete. -/
theorem persisted_text_bounded_witness :
    (run refKeyEq DB.empty
      [Request.create none ⟨0, "hello"⟩,
       Request.create none ⟨0, String.mk (List.replicate 101 'a')⟩,
       Request.create none ⟨0, "world"⟩,
       Request.update none "1" ⟨0, "there"⟩,
       Request.delete none "2"]).rows = [⟨1, "there"⟩] ∧
    (goLen "there" ≤ 100 ∧ "there".length ≤ 100) := by
  have hrun : (run refKeyEq DB.empty
      [Request.create none ⟨0, "hello"⟩,
       Request.create none ⟨0, String.mk (List.replicate 101 'a')⟩,
       Request.create none ⟨0, "world"⟩,
       Request.update none "1" ⟨0, "there"⟩,
       Request.delete none "2"]).rows = [⟨1, "there"⟩] := by decide
  exact ⟨hrun, persisted_text_bounded refKeyEq _ ⟨1, "there"⟩ (by rw [hrun]; decide)⟩

theorem foldl_goAppend (rows : List TextData) : ∀ (ts : List TextData),
    rows.foldl goAppend (some ts) = some (ts ++ rows) := by
  induction rows with
  | nil => intro ts; simp
  | cons x xs ih => intro ts; simp [goAppend, ih]

theorem foldl_goAppend_nil (rows : List TextData) :
    rows.foldl goAppend none = if rows = [] then none else some rows := by
  cases rows with
  | nil => simp
  | cons x xs => simp [goAppend, foldl_goAppend]

/-- The body of `getTexts` for every table, when the store reports no error: the
array of the records in storage order, but `null` when there is no record. -/
theorem getTexts_body (db : DB) :
    getTexts db none = ⟨200, Body.json
      (if db.rows = [] then Json.null else Json.arr (db.rows.map TextData.toJson))⟩ := by
  simp only [getTexts, DB.query, encodeOK, foldl_goAppend_nil]
  by_cases h : db.rows = [] <;> simp [h, encodeTexts]

/-- Claim C9 at the empty table: `getTexts` responds 200 with the body `null`, which
is not the empty array. -/
theorem getTexts_empty :
    getTexts DB.empty none = ⟨200, Body.json Json.null⟩ ∧
    getTexts DB.empty none ≠ ⟨200, Body.json (Json.arr [])⟩ := by
  have h : getTexts DB.empty none = ⟨200, Body.json Json.null⟩ := by
    rw [getTexts_body DB.empty]
    simp [DB.empty]
  refine ⟨h, ?_⟩
  rw [h]
  intro hc
  simp at hc

/-- Claim C10 at a text of 51 characters: 51 times the letter e with acute accent
(U+00E9, two bytes in UTF-8) is a text of 51 characters and of 102 bytes, and
`createText` rejects it with the validation error "Text exceeds 100 characters"
and stores nothing. -/
theorem createText_rejects_51_chars (db : DB) (fault : Option String) :
    (String.mk (List.replicate 51 (Char.ofNat 233))).length = 51 ∧
    goLen (String.mk (List.replicate 51 (Char.ofNat 233))) = 102 ∧
    createText db fault ⟨0, String.mk (List.replicate 51 (Char.ofNat 233))⟩
      = (⟨400, Body.text "Text exceeds 100 characters"⟩, db) := by
  have h1 : (String.mk (List.replicate 51 (Char.ofNat 233))).length = 51 := by decide
  have h2 : goLen (String.mk (List.replicate 51 (Char.ofNat 233))) = 102 := by decide
  refine ⟨h1, h2, ?_⟩
  simp only [createText, h2, httpError]
  simp

end Backend
